import Mathlib

/-! RTO-icmp: RFC 6298 timeout estimator and ICMP echo exchange

A shallow embedding of `pkg/rto/rto.go` (the `Manager` estimator) and of
`pkg/pinger/pinger.go` (the `Client` echo exchange), with the properties of the
repository's specification stated and settled over it.

Conventions.
* `time.Duration` is an `int64` count of nanoseconds; it is embedded as an `Int`
  and every `int64` operation of the source is followed by `wrap64`.
* A `float64` value `v` is embedded by the integer `8 * v` (eighths of a
  nanosecond).  Every floating-point value `Manager.Update` computes is a
  multiple of `1/8` of magnitude at most `2^64`, so neither underflow nor
  overflow occurs and rounding to the 53-bit significand is rounding of that
  integer (`roundToEven53`).  The constants `alpha` and `beta` are kept in
  eighths as well.  Each arithmetic operation is rounded on its own (no fused
  multiply-add).  Go lets an implementation fuse `x*y + z`; for magnitudes below
  `2^50` every operation of `Update` is exact, so both evaluations agree there,
  and the bounds on `RTO` do not depend on the values the floats take.
-/

namespace Rto

/-! ## Machine arithmetic -/

/-- Smallest `int64`. -/
def minInt64 : Int := -9223372036854775808

/-- Largest `int64`. -/
def maxInt64 : Int := 9223372036854775807

/-- Two's-complement reduction of an integer to the `int64` range. -/
def wrap64 (x : Int) : Int := (x + 9223372036854775808) % 18446744073709551616 - 9223372036854775808

/-- Position of the highest set bit of `a` (`0` for `a = 0`), by repeated halving. -/
def bitLen : Nat → Nat → Nat
  | 0, _ => 0
  | fuel + 1, a => if a < 2 then 0 else bitLen fuel (a / 2) + 1

/-- Round-to-nearest, ties-to-even, to a 53-bit significand: the rounding IEEE 754
binary64 applies to the exact result of an operation.  Integers of magnitude
below `2^53` are representable and returned unchanged. -/
def roundToEven53 (n : Int) : Int :=
  let a := n.natAbs
  if a < 9007199254740992 then n
  else
    let sh := bitLen a a - 52
    let q := a / 2 ^ sh
    let r := a % 2 ^ sh
    let half := 2 ^ (sh - 1)
    let q1 := if half < r ∨ (r = half ∧ q % 2 = 1) then q + 1 else q
    Int.sign n * ((q1 * 2 ^ sh : Nat) : Int)

/-- Conversion `float64(x)` of an `int64`: the value in nanoseconds. -/
def toFloat64 (x : Int) : Int := roundToEven53 x

/-- Product of the constant `num / 8` with a float holding the whole number `v`;
the result is in eighths of a nanosecond. -/
def mulConst (num : Int) (v : Int) : Int := roundToEven53 (num * v)

/-- Sum of two floats given in eighths of a nanosecond. -/
def addFloat64 (a b : Int) : Int := roundToEven53 (a + b)

/-- Conversion `time.Duration(f)` of a float given in eighths of a nanosecond:
truncation toward zero.  When the truncated value does not fit an `int64` the Go
specification leaves the result to the implementation; `oor` supplies it. -/
def toDuration (oor : Int → Int) (f : Int) : Int :=
  let t := Int.tdiv f 8
  if minInt64 ≤ t ∧ t ≤ maxInt64 then t else wrap64 (oor f)

/-! ## `pkg/rto/rto.go` -/

/-- Constant `minRTO = 1 * time.Second`. -/
def minRTO : Int := 1000000000

/-- Constant `maxRTO = 60 * time.Second`. -/
def maxRTO : Int := 60000000000

/-- Constant `alpha = 0.125`, in eighths. -/
def alpha : Int := 1

/-- Constant `beta = 0.25`, in eighths. -/
def beta : Int := 2

/-- State of the estimator (`type Manager struct`). -/
structure Manager where
  SRTT : Int
  RTTVAR : Int
  RTO : Int
  first : Bool
  deriving DecidableEq, Repr

/-- Constructor `NewManager`: `RTO = minRTO`, `first = true`, other fields zero. -/
def NewManager : Manager :=
  { SRTT := 0, RTTVAR := 0, RTO := minRTO, first := true }

/-- Method `clamp`: two successive guarded assignments on `RTO`. -/
def clamp (m : Manager) : Manager :=
  let m1 := if m.RTO < minRTO then { m with RTO := minRTO } else m
  if m1.RTO > maxRTO then { m1 with RTO := maxRTO } else m1

/-- Method `Update`. -/
def Update (oor : Int → Int) (m : Manager) (rtt : Int) : Manager :=
  if m.first then
    let srtt := rtt
    let rttvar := Int.tdiv rtt 2
    clamp { SRTT := srtt, RTTVAR := rttvar,
            RTO := wrap64 (srtt + wrap64 (4 * rttvar)), first := false }
  else
    let diff := toFloat64 (wrap64 (m.SRTT - rtt))
    let rttvar := toDuration oor
      (addFloat64 (mulConst (8 - beta) (toFloat64 m.RTTVAR)) (mulConst beta |diff|))
    let srtt := toDuration oor
      (addFloat64 (mulConst (8 - alpha) (toFloat64 m.SRTT)) (mulConst alpha (toFloat64 rtt)))
    clamp { SRTT := srtt, RTTVAR := rttvar,
            RTO := wrap64 (srtt + wrap64 (4 * rttvar)), first := m.first }

/-- Method `Backoff`. -/
def Backoff (m : Manager) : Manager :=
  clamp { m with RTO := wrap64 (m.RTO * 2) }

/-- One call on a `Manager`. -/
inductive Op where
  | update (rtt : Int)
  | backoff
  deriving DecidableEq, Repr

/-- Effect of one call. -/
def step (oor : Int → Int) (m : Manager) : Op → Manager
  | .update rtt => Update oor m rtt
  | .backoff => Backoff m

/-- Effect of a finite sequence of calls, first call first. -/
def run (oor : Int → Int) (m : Manager) (ops : List Op) : Manager :=
  ops.foldl (step oor) m

/-- The value `x` brought into `[minRTO, maxRTO]`. -/
def clampVal (x : Int) : Int := min (max x minRTO) maxRTO

/-- Counter of the `Backoff` calls made since the last `Update` (since creation
when there was none), advanced by one call. -/
def countBackoff (n : Nat) : Op → Nat
  | .update _ => 0
  | .backoff => n + 1

/-- Number of `Backoff` calls a sequence ends with. -/
def trailingBackoffs (ops : List Op) : Nat := ops.foldl countBackoff 0

/-- Whether a call is an `Update`. -/
def isUpdate : Op → Bool
  | .update _ => true
  | .backoff => false

/-- Whether a sequence of calls contains an `Update`. -/
def hasUpdate (ops : List Op) : Bool := ops.any isUpdate

end Rto

namespace Pinger

/-! ## `pkg/pinger/pinger.go` -/

/-- The fields of gopacket's `layers.ICMPv4` that `Ping` writes or reads.
`TypeCode` is the 16-bit pair with the message type in its high byte. -/
structure ICMPv4 where
  TypeCode : Nat
  Id : Nat
  Seq : Nat
  deriving DecidableEq, Repr

/-- Message type of an Echo Request. -/
def ICMPv4TypeEchoRequest : Nat := 8

/-- Message type of an Echo Reply. -/
def ICMPv4TypeEchoReply : Nat := 0

/-- Pairing of a message type and a code into a `TypeCode`. -/
def CreateICMPv4TypeCode (typ code : Nat) : Nat := typ * 256 + code

/-- Accessor `TypeCode.Type()`: the high byte. -/
def typeOf (typeCode : Nat) : Nat := typeCode / 256

/-- The fields of `type Client struct` that carry protocol state: the fixed
16-bit identifier and the 16-bit sequence counter. -/
structure Client where
  id : Nat
  seq : Nat
  deriving DecidableEq, Repr

/-- Result of a successful `NewClient` in a process whose id is `pid`. -/
def NewClient (pid : Nat) : Client :=
  { id := pid % 65536, seq := 1 }

/-- Method `CurrentSeq`: the value returned and the client afterwards. -/
def CurrentSeq (c : Client) : Nat × Client := (c.seq, c)

/-- Error values `Ping` returns; a collaborator's error is named by a number. -/
inductive GoError where
  | serialize (cause : Nat)
  | send (cause : Nat)
  | plain (cause : Nat)
  deriving DecidableEq, Repr

/-- What one `ReadFrom` call hands back to the receive loop.
* `datagram layer readAt now`: the read succeeded at instant `readAt`; `layer`
  is what `packet.Layer(LayerTypeICMPv4)` yields for the bytes read (`none` when
  they do not decode); `now` is the reading `time.Now()` gives on the next line.
  The code never sees `readAt`.
* `failure cause netTimeout`: the read returned a non-nil error; `netTimeout`
  tells whether it is a `net.Error` whose `Timeout()` holds. -/
inductive ReadEvent where
  | datagram (layer : Option ICMPv4) (readAt : Int) (now : Int)
  | failure (cause : Nat) (netTimeout : Bool)
  deriving DecidableEq, Repr

/-- What the collaborators of one `Ping` call answer: the serializer, the clock
before the send, `WriteTo`, `SetReadDeadline`, and the successive `ReadFrom`
calls. -/
structure Env where
  serializeErr : Option Nat
  start : Int
  sendErr : Option Nat
  deadlineErr : Option Nat
  reads : List ReadEvent
  deriving Repr

/-- The triple `(time.Duration, bool, error)` a `Ping` call returns. -/
structure PingReturn where
  rtt : Int
  timedOut : Bool
  err : Option GoError
  deriving DecidableEq, Repr

/-- Everything observable of one `Ping` call: the client afterwards, the Echo
Request layer built, the deadline handed to `SetReadDeadline` (when reached),
the number of `ReadFrom` calls made, and the returned triple (`none` when the
recorded reads end before the loop does). -/
structure PingRun where
  client : Client
  request : ICMPv4
  deadline : Option Int
  readsDone : Nat
  ret : Option PingReturn
  deriving DecidableEq, Repr

/-- Method `Time.Sub`: the difference as a `Duration`, saturating at the ends of
the `int64` range. -/
def timeSub (t u : Int) : Int :=
  if t - u > Rto.maxInt64 then Rto.maxInt64
  else if t - u < Rto.minInt64 then Rto.minInt64
  else t - u

/-- The condition of the receive loop's inner `if`. -/
def isMatch (id currentSeq : Nat) (icmp : ICMPv4) : Bool :=
  typeOf icmp.TypeCode == ICMPv4TypeEchoReply && icmp.Id == id && icmp.Seq == currentSeq

/-- The receive loop `for { ... }` of `Ping`: number of reads made and the
returned triple. -/
def recvLoop (id currentSeq : Nat) (start : Int) : List ReadEvent → Nat × Option PingReturn
  | [] => (0, none)
  | .failure cause netTimeout :: _ =>
    if netTimeout then (1, some ⟨0, true, none⟩)
    else (1, some ⟨0, false, some (.plain cause)⟩)
  | .datagram layer _ now :: rest =>
    match layer with
    | some icmp =>
      if isMatch id currentSeq icmp then (1, some ⟨timeSub now start, false, none⟩)
      else ((recvLoop id currentSeq start rest).1 + 1, (recvLoop id currentSeq start rest).2)
    | none => ((recvLoop id currentSeq start rest).1 + 1, (recvLoop id currentSeq start rest).2)

/-- Method `Ping`. -/
def Ping (c : Client) (timeout : Int) (env : Env) : PingRun :=
  let currentSeq := c.seq
  let c1 : Client := { c with seq := (c.seq + 1) % 65536 }
  let icmpLayer : ICMPv4 :=
    { TypeCode := CreateICMPv4TypeCode ICMPv4TypeEchoRequest 0, Id := c.id, Seq := currentSeq }
  match env.serializeErr with
  | some e => ⟨c1, icmpLayer, none, 0, some ⟨0, false, some (.serialize e)⟩⟩
  | none =>
    match env.sendErr with
    | some e => ⟨c1, icmpLayer, none, 0, some ⟨0, false, some (.send e)⟩⟩
    | none =>
      let deadline := env.start + timeout
      match env.deadlineErr with
      | some e => ⟨c1, icmpLayer, some deadline, 0, some ⟨0, false, some (.plain e)⟩⟩
      | none =>
        let r := recvLoop c.id currentSeq env.start env.reads
        ⟨c1, icmpLayer, some deadline, r.1, r.2⟩

/-- Consecutive `Ping` calls on one client, one `(timeout, env)` per call. -/
def pingMany (c : Client) : List (Int × Env) → List PingRun
  | [] => []
  | (t, e) :: rest => Ping c t e :: pingMany (Ping c t e).client rest

/-- The client after consecutive `Ping` calls. -/
def clientAfter (c : Client) : List (Int × Env) → Client
  | [] => c
  | (t, e) :: rest => clientAfter (Ping c t e).client rest

/-- A read event of the kind the specification says is discarded: a datagram
that does not decode, or is not an Echo Reply, or is an Echo Reply whose
identifier or sequence number differs from the awaited one. -/
def isNoise (id currentSeq : Nat) : ReadEvent → Bool
  | .datagram none _ _ => true
  | .datagram (some icmp) _ _ =>
    typeOf icmp.TypeCode != ICMPv4TypeEchoReply || icmp.Id != id || icmp.Seq != currentSeq
  | .failure _ _ => false

/-- A datagram reaching the socket: its decoded layer, the instant it arrives,
and the reading `time.Now()` gives once a read has handed it over. -/
structure Arrival where
  layer : Option ICMPv4
  arrivedAt : Int
  now : Int
  deriving DecidableEq, Repr

/-- The read event by which an arrival is handed over. -/
def Arrival.toEvent (a : Arrival) : ReadEvent :=
  .datagram a.layer a.arrivedAt a.now

/-- Transport assumption, after the specification's interface of the raw
transport (set a read deadline; receive gives bytes or a failure, deadline
expiry included): with the read deadline set to `deadline`, the successive reads
hand over, in order, the datagrams that arrive before `deadline`, and the read
after them fails with a network timeout.  A datagram arriving at the deadline or
later is never handed over. -/
def deliver (deadline : Int) (arrivals : List Arrival) : List ReadEvent :=
  (arrivals.filter (fun a => decide (a.arrivedAt < deadline))).map Arrival.toEvent
    ++ [.failure 0 true]

end Pinger

/-! ## Properties of the estimator -/

namespace Rto

theorem clamp_RTO (m : Manager) : (clamp m).RTO = clampVal m.RTO := by
  unfold clamp clampVal minRTO maxRTO
  by_cases h1 : m.RTO < 1000000000
  · simp only [h1, if_true]
    rw [if_neg (by norm_num), max_eq_right (by omega), min_eq_left (by norm_num)]
  · simp only [h1, if_false]
    by_cases h2 : m.RTO > 60000000000
    · rw [if_pos h2, max_eq_left (by omega), min_eq_right (by omega)]
    · rw [if_neg h2, max_eq_left (by omega), min_eq_left (by omega)]

theorem clamp_SRTT (m : Manager) : (clamp m).SRTT = m.SRTT := by
  simp only [clamp]
  split_ifs <;> rfl

theorem clamp_RTTVAR (m : Manager) : (clamp m).RTTVAR = m.RTTVAR := by
  simp only [clamp]
  split_ifs <;> rfl

theorem clamp_first (m : Manager) : (clamp m).first = m.first := by
  simp only [clamp]
  split_ifs <;> rfl

theorem clampVal_bounds (x : Int) : minRTO ≤ clampVal x ∧ clampVal x ≤ maxRTO := by
  unfold clampVal minRTO maxRTO
  omega

theorem clampVal_of_mem (x : Int) (h1 : minRTO ≤ x) (h2 : x ≤ maxRTO) : clampVal x = x := by
  unfold clampVal minRTO maxRTO at *
  omega

theorem wrap64_of_fits (x : Int) (h1 : minInt64 ≤ x) (h2 : x ≤ maxInt64) : wrap64 x = x := by
  unfold wrap64 minInt64 maxInt64 at *
  omega

theorem roundToEven53_of_small (n : Int) (h : |n| < 9007199254740992) : roundToEven53 n = n := by
  unfold roundToEven53
  rw [abs_lt] at h
  have : n.natAbs < 9007199254740992 := by omega
  simp [this]

theorem tdiv_of_pos (a b : Int) (hb : 0 < b) :
    Int.tdiv a b = if 0 ≤ a then a / b else -((-a) / b) := by
  split_ifs with h
  · exact Int.tdiv_eq_ediv h (le_of_lt hb)
  · have h2 : Int.tdiv (-a) b = (-a) / b := Int.tdiv_eq_ediv (by omega) (le_of_lt hb)
    rw [Int.neg_tdiv] at h2
    omega

theorem step_RTO_bounds (oor : Int → Int) (m : Manager) (op : Op) :
    minRTO ≤ (step oor m op).RTO ∧ (step oor m op).RTO ≤ maxRTO := by
  cases op with
  | update rtt =>
    simp only [step, Update]
    split_ifs <;> (rw [clamp_RTO]; exact clampVal_bounds _)
  | backoff =>
    simp only [step, Backoff]
    rw [clamp_RTO]; exact clampVal_bounds _

theorem run_append_single (oor : Int → Int) (m : Manager) (ops : List Op) (op : Op) :
    run oor m (ops ++ [op]) = step oor (run oor m ops) op := by
  simp [run, List.foldl_append]

theorem run_RTO_bounds (oor : Int → Int) (ops : List Op) :
    minRTO ≤ (run oor NewManager ops).RTO ∧ (run oor NewManager ops).RTO ≤ maxRTO := by
  induction ops using List.reverseRecOn with
  | nil => simp [run, NewManager, minRTO, maxRTO]
  | append_singleton ops op _ =>
    rw [run_append_single]
    exact step_RTO_bounds oor _ op

/-- C1: in every state reached from `NewManager` by a finite sequence of
`Update` (any sample) and `Backoff` calls, `minRTO ≤ RTO ≤ maxRTO`, that is
`1s ≤ RTO ≤ 60s`, and so `RTO` is not negative. -/
theorem rto_always_clamped (oor : Int → Int) (ops : List Op) :
    minRTO ≤ (run oor NewManager ops).RTO ∧ (run oor NewManager ops).RTO ≤ maxRTO ∧
      1000000000 ≤ (run oor NewManager ops).RTO ∧
      (run oor NewManager ops).RTO ≤ 60000000000 ∧ 0 ≤ (run oor NewManager ops).RTO := by
  obtain ⟨h1, h2⟩ := run_RTO_bounds oor ops
  unfold minRTO at h1
  unfold maxRTO at h2
  refine ⟨by unfold minRTO; exact h1, by unfold maxRTO; exact h2, h1, h2, by omega⟩

theorem bitLen_eq (k : Nat) : ∀ (fuel a : Nat), 2 ^ k ≤ a → a < 2 ^ (k + 1) → a ≤ fuel →
    bitLen fuel a = k := by
  induction k with
  | zero =>
    intro fuel a h1 h2 h3
    cases fuel with
    | zero => omega
    | succ f =>
      have : a < 2 := by simpa using h2
      simp [bitLen, this]
  | succ k ih =>
    intro fuel a h1 h2 h3
    have hk : 1 ≤ 2 ^ k := Nat.one_le_two_pow
    have e1 : 2 ^ (k + 1) = 2 * 2 ^ k := by ring
    have e2 : 2 ^ (k + 1 + 1) = 2 * (2 * 2 ^ k) := by ring
    rw [e1] at h1
    rw [e2] at h2
    cases fuel with
    | zero => omega
    | succ f =>
      have hlt : ¬ a < 2 := by omega
      simp only [bitLen, hlt, if_false]
      rw [ih f (a / 2) (by omega) (by rw [e1]; omega) (by omega)]

theorem roundToEven53_double (k : Int) (h : |k| < 9007199254740992) :
    roundToEven53 (2 * k) = 2 * k := by
  rw [abs_lt] at h
  by_cases hs : |2 * k| < 9007199254740992
  · exact roundToEven53_of_small _ hs
  · rw [abs_lt] at hs
    have ha1 : 9007199254740992 ≤ (2 * k).natAbs := by omega
    have ha2 : (2 * k).natAbs < 18014398509481984 := by omega
    have hb : bitLen (2 * k).natAbs (2 * k).natAbs = 53 :=
      bitLen_eq 53 _ _ (by norm_num; exact ha1) (by norm_num; exact ha2) (le_refl _)
    unfold roundToEven53
    simp only [hb]
    rw [if_neg (by omega)]
    have hr : (2 * k).natAbs % 2 ^ (53 - 52) = 0 := by norm_num; omega
    simp only [hr]
    rw [if_neg (by norm_num)]
    have hq : (2 * k).natAbs / 2 ^ (53 - 52) * 2 ^ (53 - 52) = (2 * k).natAbs := by
      norm_num; omega
    rw [hq]
    rcases lt_trichotomy (2 * k) 0 with hneg | hz | hpos
    · rw [Int.sign_eq_neg_one_of_neg hneg]; omega
    · rw [hz]; rfl
    · rw [Int.sign_eq_one_of_pos hpos]; omega

theorem toDuration_of_fits (oor : Int → Int) (f : Int)
    (h1 : minInt64 ≤ Int.tdiv f 8) (h2 : Int.tdiv f 8 ≤ maxInt64) :
    toDuration oor f = Int.tdiv f 8 := by
  unfold toDuration
  simp [h1, h2]

/-- C2: on a manager that has already seen a sample, with `SRTT = S`,
`RTTVAR = V` and a sample `R` all of magnitude below `2^50` nanoseconds,
`Update R` sets `RTTVAR` to `(3 * V + |S - R|) / 4` (from the old `S`), `SRTT` to
`(7 * S + R) / 8`, both truncated toward zero, and `RTO` to the new
`SRTT + 4 * RTTVAR` clamped to `[1s, 60s]`. -/
theorem update_steady_state (oor : Int → Int) (m : Manager) (R : Int)
    (hfirst : m.first = false)
    (hS : |m.SRTT| < 1125899906842624) (hV : |m.RTTVAR| < 1125899906842624)
    (hR : |R| < 1125899906842624) :
    (Update oor m R).RTTVAR = Int.tdiv (3 * m.RTTVAR + |m.SRTT - R|) 4 ∧
      (Update oor m R).SRTT = Int.tdiv (7 * m.SRTT + R) 8 ∧
      (Update oor m R).RTO =
        clampVal ((Update oor m R).SRTT + 4 * (Update oor m R).RTTVAR) ∧
      (Update oor m R).first = false := by
  rw [abs_lt] at hS hV hR
  have hD1 : 0 ≤ |m.SRTT - R| := abs_nonneg _
  have hD2 : |m.SRTT - R| < 2251799813685248 := by rw [abs_lt]; omega
  have hd : wrap64 (m.SRTT - R) = m.SRTT - R :=
    wrap64_of_fits _ (by unfold minInt64; omega) (by unfold maxInt64; omega)
  have e1 : toFloat64 (m.SRTT - R) = m.SRTT - R :=
    roundToEven53_of_small _ (by omega)
  have e2 : toFloat64 m.RTTVAR = m.RTTVAR :=
    roundToEven53_of_small _ (by rw [abs_lt]; omega)
  have e3 : toFloat64 m.SRTT = m.SRTT :=
    roundToEven53_of_small _ (by rw [abs_lt]; omega)
  have e4 : toFloat64 R = R :=
    roundToEven53_of_small _ (by rw [abs_lt]; omega)
  generalize hDdef : |m.SRTT - R| = D at hD1 hD2 ⊢
  have e5 : mulConst 6 m.RTTVAR = 6 * m.RTTVAR :=
    roundToEven53_of_small _ (by rw [abs_lt]; omega)
  have e6 : mulConst 2 D = 2 * D :=
    roundToEven53_of_small _ (by rw [abs_lt]; omega)
  have e7 : mulConst 7 m.SRTT = 7 * m.SRTT :=
    roundToEven53_of_small _ (by rw [abs_lt]; omega)
  have e8 : mulConst 1 R = R := by
    have := roundToEven53_of_small (1 * R) (by rw [abs_lt]; omega)
    simpa [mulConst] using this
  have e9 : addFloat64 (6 * m.RTTVAR) (2 * D) = 2 * (3 * m.RTTVAR + D) := by
    have := roundToEven53_double (3 * m.RTTVAR + D) (by rw [abs_lt]; omega)
    unfold addFloat64
    rw [show 6 * m.RTTVAR + 2 * D = 2 * (3 * m.RTTVAR + D) by ring]
    exact this
  have e10 : addFloat64 (7 * m.SRTT) R = 7 * m.SRTT + R :=
    roundToEven53_of_small _ (by rw [abs_lt]; omega)
  have t1 := tdiv_of_pos (2 * (3 * m.RTTVAR + D)) 8 (by norm_num)
  have t2 := tdiv_of_pos (7 * m.SRTT + R) 8 (by norm_num)
  have t3 := tdiv_of_pos (3 * m.RTTVAR + D) 4 (by norm_num)
  have d1 : toDuration oor (2 * (3 * m.RTTVAR + D)) = Int.tdiv (3 * m.RTTVAR + D) 4 := by
    rw [toDuration_of_fits]
    · rw [t1, t3]; split_ifs <;> omega
    · rw [t1]; unfold minInt64; split_ifs <;> omega
    · rw [t1]; unfold maxInt64; split_ifs <;> omega
  have d2 : toDuration oor (7 * m.SRTT + R) = Int.tdiv (7 * m.SRTT + R) 8 := by
    rw [toDuration_of_fits]
    · rw [t2]; unfold minInt64; split_ifs <;> omega
    · rw [t2]; unfold maxInt64; split_ifs <;> omega
  have hU : Update oor m R = clamp
      { SRTT := Int.tdiv (7 * m.SRTT + R) 8, RTTVAR := Int.tdiv (3 * m.RTTVAR + D) 4,
        RTO := wrap64 (Int.tdiv (7 * m.SRTT + R) 8 +
          wrap64 (4 * Int.tdiv (3 * m.RTTVAR + D) 4)), first := false } := by
    unfold Update
    rw [hfirst]
    simp only [Bool.false_eq_true, if_false]
    rw [show (8 : Int) - beta = 6 by decide, show (8 : Int) - alpha = 7 by decide,
      show beta = 2 by rfl, show alpha = 1 by rfl]
    rw [hd, e1, e2, e3, e4, hDdef, e5, e6, e7, e8, e9, e10, d1, d2]
  rw [hU, clamp_RTTVAR, clamp_SRTT, clamp_RTO, clamp_first]
  refine ⟨rfl, rfl, ?_, rfl⟩
  simp only
  have w1 : wrap64 (4 * Int.tdiv (3 * m.RTTVAR + D) 4) = 4 * Int.tdiv (3 * m.RTTVAR + D) 4 := by
    apply wrap64_of_fits
    · rw [t3]; unfold minInt64; split_ifs <;> omega
    · rw [t3]; unfold maxInt64; split_ifs <;> omega
  rw [w1]
  rw [wrap64_of_fits]
  · rw [t2, t3]; unfold minInt64; split_ifs <;> omega
  · rw [t2, t3]; unfold maxInt64; split_ifs <;> omega

/-- Witness of C2, the specification's example: from `SRTT = 200ms`,
`RTTVAR = 50ms`, `Update 220ms` gives `RTTVAR = 42.5ms`, `SRTT = 202.5ms` and
`RTO = 1s`. -/
theorem update_steady_state_witness :
    (Update (fun _ => 0) ⟨200000000, 50000000, 1000000000, false⟩ 220000000).RTTVAR
        = 42500000 ∧
      (Update (fun _ => 0) ⟨200000000, 50000000, 1000000000, false⟩ 220000000).SRTT
        = 202500000 ∧
      (Update (fun _ => 0) ⟨200000000, 50000000, 1000000000, false⟩ 220000000).RTO
        = 1000000000 := by
  have h := update_steady_state (fun _ => 0) ⟨200000000, 50000000, 1000000000, false⟩
    220000000 rfl (by decide) (by decide) (by decide)
  obtain ⟨h1, h2, h3, _⟩ := h
  refine ⟨?_, ?_, ?_⟩
  · rw [h1]; decide
  · rw [h2]; decide
  · rw [h3, h1, h2]; decide

theorem run_backoffs_first (oor : Int → Int) (k : Nat) :
    (run oor NewManager (List.replicate k Op.backoff)).first = true := by
  induction k with
  | zero => rfl
  | succ k ih =>
    rw [List.replicate_succ', run_append_single]
    simp only [step, Backoff]
    rw [clamp_first]
    exact ih

/-- C3, counterexample: on a fresh manager `Update (2^62 ns)` leaves `RTO = 1s`,
whereas `SRTT + 4 * RTTVAR = 3 * 2^62 ns` clamped to `[1s, 60s]` is `60s`: the
`int64` product `4 * RTTVAR` wraps to `-2^63`. -/
theorem first_update_counterexample :
    (Update (fun _ => 0) NewManager 4611686018427387904).SRTT = 4611686018427387904 ∧
      (Update (fun _ => 0) NewManager 4611686018427387904).RTTVAR = 2305843009213693952 ∧
      (Update (fun _ => 0) NewManager 4611686018427387904).RTO = 1000000000 ∧
      clampVal (4611686018427387904 + 4 * 2305843009213693952) = 60000000000 ∧
      ¬ ((Update (fun _ => 0) NewManager 4611686018427387904).RTO =
        clampVal ((Update (fun _ => 0) NewManager 4611686018427387904).SRTT +
          4 * (Update (fun _ => 0) NewManager 4611686018427387904).RTTVAR)) := by
  decide

/-- C3, amended: the first `Update rtt` on a manager made by `NewManager`,
after any number of `Backoff` calls, sets `SRTT = rtt`, `RTTVAR = rtt / 2`
(truncated toward zero), records the sample, and sets `RTO` to the `int64`
(wrapping) value of `SRTT + 4 * RTTVAR` clamped to `[1s, 60s]`; when
`rtt + 4 * (rtt / 2)` fits an `int64` that is `SRTT + 4 * RTTVAR` clamped. -/
theorem first_update_sets_estimate (oor : Int → Int) (k : Nat) (rtt : Int) :
    (Update oor (run oor NewManager (List.replicate k Op.backoff)) rtt).SRTT = rtt ∧
      (Update oor (run oor NewManager (List.replicate k Op.backoff)) rtt).RTTVAR
        = Int.tdiv rtt 2 ∧
      (Update oor (run oor NewManager (List.replicate k Op.backoff)) rtt).first = false ∧
      (Update oor (run oor NewManager (List.replicate k Op.backoff)) rtt).RTO
        = clampVal (wrap64 (rtt + wrap64 (4 * Int.tdiv rtt 2))) ∧
      (minInt64 ≤ rtt + 4 * Int.tdiv rtt 2 → rtt + 4 * Int.tdiv rtt 2 ≤ maxInt64 →
        (Update oor (run oor NewManager (List.replicate k Op.backoff)) rtt).RTO
          = clampVal ((Update oor (run oor NewManager (List.replicate k Op.backoff)) rtt).SRTT +
              4 * (Update oor (run oor NewManager (List.replicate k Op.backoff)) rtt).RTTVAR)) := by
  have hU : Update oor (run oor NewManager (List.replicate k Op.backoff)) rtt = clamp
      { SRTT := rtt, RTTVAR := Int.tdiv rtt 2,
        RTO := wrap64 (rtt + wrap64 (4 * Int.tdiv rtt 2)), first := false } := by
    unfold Update
    rw [run_backoffs_first]
    simp
  rw [hU, clamp_SRTT, clamp_RTTVAR, clamp_first, clamp_RTO]
  refine ⟨rfl, rfl, rfl, rfl, ?_⟩
  intro hlo hhi
  simp only
  have t := tdiv_of_pos rtt 2 (by norm_num)
  have w1 : wrap64 (4 * Int.tdiv rtt 2) = 4 * Int.tdiv rtt 2 := by
    apply wrap64_of_fits
    · rw [t] at hlo hhi ⊢; unfold minInt64 maxInt64 at *; split_ifs at * <;> omega
    · rw [t] at hlo hhi ⊢; unfold minInt64 maxInt64 at *; split_ifs at * <;> omega
  rw [w1, wrap64_of_fits _ hlo hhi]

/-- Witness of C3, the specification's cold start: on a fresh manager
`Update 100ms` gives `SRTT = 100ms`, `RTTVAR = 50ms`, `RTO = 1s`, which is
`SRTT + 4 * RTTVAR = 300ms` clamped. -/
theorem first_update_sets_estimate_witness :
    (Update (fun _ => 0) NewManager 100000000).SRTT = 100000000 ∧
      (Update (fun _ => 0) NewManager 100000000).RTTVAR = 50000000 ∧
      (Update (fun _ => 0) NewManager 100000000).first = false ∧
      (Update (fun _ => 0) NewManager 100000000).RTO = 1000000000 ∧
      (Update (fun _ => 0) NewManager 100000000).RTO
        = clampVal ((Update (fun _ => 0) NewManager 100000000).SRTT +
            4 * (Update (fun _ => 0) NewManager 100000000).RTTVAR) := by
  have h := first_update_sets_estimate (fun _ => 0) 0 100000000
  obtain ⟨h1, h2, h3, h4, h5⟩ := h
  exact ⟨h1, h2.trans (by decide), h3, h4.trans (by decide), h5 (by decide) (by decide)⟩

theorem backoff_RTO_of_mem (m : Manager) (h1 : minRTO ≤ m.RTO) (h2 : m.RTO ≤ maxRTO) :
    (Backoff m).RTO = min (2 * m.RTO) maxRTO := by
  unfold Backoff
  rw [clamp_RTO]
  simp only
  unfold minRTO at h1
  unfold maxRTO at h2
  rw [wrap64_of_fits _ (by unfold minInt64; omega) (by unfold maxInt64; omega)]
  unfold clampVal minRTO maxRTO
  omega

/-- C4: on a state whose `RTO` lies in `[1s, 60s]`, `Backoff` sets `RTO` to
`2 * RTO` clamped to `[1s, 60s]`, that is to `min (2 * RTO) 60s`. -/
theorem backoff_doubles_and_clamps (m : Manager) (h1 : minRTO ≤ m.RTO) (h2 : m.RTO ≤ maxRTO) :
    (Backoff m).RTO = clampVal (2 * m.RTO) ∧ (Backoff m).RTO = min (2 * m.RTO) 60000000000 := by
  have h := backoff_RTO_of_mem m h1 h2
  unfold minRTO at h1
  unfold maxRTO at h h2
  refine ⟨?_, h⟩
  rw [h]
  unfold clampVal minRTO maxRTO
  omega

/-- Witness of C4, the specification's example: from `RTO = 40s`, `Backoff`
gives `60s` (not `80s`) and a further `Backoff` stays at `60s`. -/
theorem backoff_doubles_and_clamps_witness :
    (Backoff ⟨0, 0, 40000000000, false⟩).RTO = 60000000000 ∧
      (Backoff (Backoff ⟨0, 0, 40000000000, false⟩)).RTO = 60000000000 := by
  have h := (backoff_doubles_and_clamps ⟨0, 0, 40000000000, false⟩ (by decide) (by decide)).2
  have h' := (backoff_doubles_and_clamps (Backoff ⟨0, 0, 40000000000, false⟩)
    (by decide) (by decide)).2
  refine ⟨?_, ?_⟩
  · rw [h]; decide
  · rw [h', h]; decide

theorem backoff_keeps_frame (m : Manager) :
    (Backoff m).SRTT = m.SRTT ∧ (Backoff m).RTTVAR = m.RTTVAR := by
  unfold Backoff
  rw [clamp_SRTT, clamp_RTTVAR]
  exact ⟨rfl, rfl⟩

/-- C5: in every state (any `SRTT`, `RTTVAR`, `RTO`, sample seen or not),
`Backoff` leaves `SRTT` and `RTTVAR` unchanged. -/
theorem backoff_keeps_estimate (m : Manager) :
    (Backoff m).SRTT = m.SRTT ∧ (Backoff m).RTTVAR = m.RTTVAR :=
  backoff_keeps_frame m

theorem trailingBackoffs_append_single (ops : List Op) (op : Op) :
    trailingBackoffs (ops ++ [op]) = countBackoff (trailingBackoffs ops) op := by
  simp [trailingBackoffs, List.foldl_append]

theorem hasUpdate_append_single (ops : List Op) (op : Op) :
    hasUpdate (ops ++ [op]) = (hasUpdate ops || isUpdate op) := by
  simp [hasUpdate, List.any_append]

theorem Update_first (oor : Int → Int) (m : Manager) (rtt : Int) :
    (Update oor m rtt).first = false := by
  unfold Update
  split_ifs with h
  · rw [clamp_first]
  · rw [clamp_first]; simpa using h

theorem Update_RTO (oor : Int → Int) (m : Manager) (rtt : Int) :
    (Update oor m rtt).RTO =
      clampVal (wrap64 ((Update oor m rtt).SRTT + wrap64 (4 * (Update oor m rtt).RTTVAR))) := by
  unfold Update
  split_ifs with h
  · rw [clamp_RTO, clamp_SRTT, clamp_RTTVAR]
  · rw [clamp_RTO, clamp_SRTT, clamp_RTTVAR]

/-- C6, counterexample: after `NewManager` and one `Backoff` no sample has been
seen and `RTO = 2s`, not `minRTO`; after `Update 100ms` and one `Backoff` a sample
has been seen and `RTO = 2s`, whereas `SRTT + 4 * RTTVAR = 300ms` clamped is `1s`. -/
theorem rto_invariant_counterexample :
    (run (fun _ => 0) NewManager [Op.backoff]).first = true ∧
      (run (fun _ => 0) NewManager [Op.backoff]).RTO = 2000000000 ∧
      ¬ ((run (fun _ => 0) NewManager [Op.backoff]).RTO = minRTO) ∧
      (run (fun _ => 0) NewManager [Op.update 100000000, Op.backoff]).first = false ∧
      (run (fun _ => 0) NewManager [Op.update 100000000, Op.backoff]).RTO = 2000000000 ∧
      ¬ ((run (fun _ => 0) NewManager [Op.update 100000000, Op.backoff]).RTO =
        clampVal ((run (fun _ => 0) NewManager [Op.update 100000000, Op.backoff]).SRTT +
          4 * (run (fun _ => 0) NewManager [Op.update 100000000, Op.backoff]).RTTVAR)) := by
  decide

/-- C6, amended: in every state reached from `NewManager` by a finite sequence
of `Update` and `Backoff` calls, a sample has been seen exactly when the
sequence contains an `Update`, and `RTO = min (2^k * base) maxRTO`, where `k` is
the number of `Backoff` calls since the last `Update` (since creation when there
was none) and `base` is `minRTO` when no sample has been seen and otherwise the
`int64` sum `SRTT + 4 * RTTVAR` clamped to `[minRTO, maxRTO]`; with `k = 0`,
`RTO = base`. -/
theorem rto_invariant_with_backoff (oor : Int → Int) (ops : List Op) :
    (run oor NewManager ops).first = !hasUpdate ops ∧
      (run oor NewManager ops).RTO =
        min (2 ^ trailingBackoffs ops *
          (if (run oor NewManager ops).first then minRTO
           else clampVal (wrap64 ((run oor NewManager ops).SRTT +
             wrap64 (4 * (run oor NewManager ops).RTTVAR))))) maxRTO ∧
      (trailingBackoffs ops = 0 →
        (run oor NewManager ops).RTO =
          (if (run oor NewManager ops).first then minRTO
           else clampVal (wrap64 ((run oor NewManager ops).SRTT +
             wrap64 (4 * (run oor NewManager ops).RTTVAR))))) := by
  suffices key : (run oor NewManager ops).first = !hasUpdate ops ∧
      (run oor NewManager ops).RTO =
        min (2 ^ trailingBackoffs ops *
          (if (run oor NewManager ops).first then minRTO
           else clampVal (wrap64 ((run oor NewManager ops).SRTT +
             wrap64 (4 * (run oor NewManager ops).RTTVAR))))) maxRTO by
    refine ⟨key.1, key.2, ?_⟩
    intro hk
    have h2 := key.2
    rw [hk, pow_zero, one_mul] at h2
    rw [h2]
    apply min_eq_left
    split_ifs
    · decide
    · exact (clampVal_bounds _).2
  induction ops using List.reverseRecOn with
  | nil => exact ⟨rfl, by simp [run, NewManager, trailingBackoffs, minRTO, maxRTO]⟩
  | append_singleton ops op ih =>
    obtain ⟨ihf, ihr⟩ := ih
    have hb := run_RTO_bounds oor ops
    rw [run_append_single, trailingBackoffs_append_single, hasUpdate_append_single]
    cases op with
    | update rtt =>
      simp only [step, countBackoff, isUpdate, Bool.or_true, Bool.not_true, pow_zero, one_mul]
      refine ⟨Update_first oor _ rtt, ?_⟩
      rw [Update_first]
      simp only [Bool.false_eq_true, if_false]
      have hc := clampVal_bounds
        (wrap64 ((Update oor (run oor NewManager ops) rtt).SRTT +
          wrap64 (4 * (Update oor (run oor NewManager ops) rtt).RTTVAR)))
      rw [min_eq_left hc.2]
      exact Update_RTO oor _ rtt
    | backoff =>
      simp only [step, countBackoff, isUpdate, Bool.or_false]
      have hfr : (Backoff (run oor NewManager ops)).first = (run oor NewManager ops).first := by
        unfold Backoff; rw [clamp_first]
      obtain ⟨hs, hv⟩ := backoff_keeps_frame (run oor NewManager ops)
      rw [hfr, hs, hv, backoff_RTO_of_mem _ hb.1 hb.2]
      refine ⟨ihf, ?_⟩
      generalize (if (run oor NewManager ops).first = true then minRTO
        else clampVal (wrap64 ((run oor NewManager ops).SRTT +
          wrap64 (4 * (run oor NewManager ops).RTTVAR)))) = b at ihr ⊢
      rw [pow_succ, show (2 : Int) ^ trailingBackoffs ops * 2 * b
        = 2 * (2 ^ trailingBackoffs ops * b) by ring]
      generalize (2 : Int) ^ trailingBackoffs ops * b = X at ihr ⊢
      rw [ihr]
      unfold maxRTO
      omega

end Rto

/-! ## Properties of the echo exchange -/

namespace Pinger

theorem isNoise_datagram (id currentSeq : Nat) (icmp : ICMPv4) (readAt now : Int) :
    isNoise id currentSeq (.datagram (some icmp) readAt now) = !isMatch id currentSeq icmp := by
  simp only [isNoise, isMatch, Bool.not_and, bne]

theorem recvLoop_noise_cons (id currentSeq : Nat) (start : Int) (ev : ReadEvent)
    (rest : List ReadEvent) (h : isNoise id currentSeq ev = true) :
    recvLoop id currentSeq start (ev :: rest) =
      ((recvLoop id currentSeq start rest).1 + 1, (recvLoop id currentSeq start rest).2) := by
  cases ev with
  | failure cause nt => simp [isNoise] at h
  | datagram layer readAt now =>
    cases layer with
    | none => simp [recvLoop]
    | some icmp =>
      rw [isNoise_datagram] at h
      have hm : isMatch id currentSeq icmp = false := by simpa using h
      simp [recvLoop, hm]

theorem recvLoop_noise_append (id currentSeq : Nat) (start : Int) (noise rest : List ReadEvent)
    (h : ∀ ev ∈ noise, isNoise id currentSeq ev = true) :
    recvLoop id currentSeq start (noise ++ rest) =
      ((recvLoop id currentSeq start rest).1 + noise.length,
        (recvLoop id currentSeq start rest).2) := by
  induction noise with
  | nil => simp
  | cons ev noise ih =>
    have h1 : isNoise id currentSeq ev = true := h ev (List.mem_cons_self _ _)
    have h2 : ∀ e ∈ noise, isNoise id currentSeq e = true :=
      fun e he => h e (List.mem_cons_of_mem _ he)
    rw [List.cons_append, recvLoop_noise_cons _ _ _ _ _ h1, ih h2]
    simp only [List.length_cons]
    congr 1

theorem Ping_reaches_loop (c : Client) (timeout : Int) (env : Env)
    (hser : env.serializeErr = none) (hsend : env.sendErr = none)
    (hdl : env.deadlineErr = none) :
    (Ping c timeout env).ret = (recvLoop c.id c.seq env.start env.reads).2 ∧
      (Ping c timeout env).readsDone = (recvLoop c.id c.seq env.start env.reads).1 ∧
      (Ping c timeout env).deadline = some (env.start + timeout) := by
  simp [Ping, hser, hsend, hdl]

theorem Ping_client (c : Client) (timeout : Int) (env : Env) :
    (Ping c timeout env).client = { id := c.id, seq := (c.seq + 1) % 65536 } := by
  unfold Ping
  cases env.serializeErr <;> cases env.sendErr <;> cases env.deadlineErr <;> rfl

theorem Ping_request (c : Client) (timeout : Int) (env : Env) :
    (Ping c timeout env).request = { TypeCode := 2048, Id := c.id, Seq := c.seq } := by
  unfold Ping
  cases env.serializeErr <;> cases env.sendErr <;> cases env.deadlineErr <;> rfl

theorem pingMany_length (calls : List (Int × Env)) :
    ∀ c : Client, (pingMany c calls).length = calls.length := by
  induction calls with
  | nil => intro c; rfl
  | cons call rest ih =>
    intro c
    obtain ⟨t, e⟩ := call
    simp [pingMany, ih]

theorem pingMany_seqs (calls : List (Int × Env)) :
    ∀ c : Client, c.seq < 65536 →
      (pingMany c calls).map (fun r => r.request.Seq) =
        (List.range calls.length).map (fun i => (c.seq + i) % 65536) := by
  induction calls with
  | nil => intro c _; rfl
  | cons call rest ih =>
    intro c hc
    obtain ⟨t, e⟩ := call
    have hlt : (Ping c t e).client.seq < 65536 := by
      rw [Ping_client]; exact Nat.mod_lt _ (by norm_num)
    simp only [pingMany, List.map_cons, List.length_cons]
    rw [ih _ hlt, List.range_succ_eq_map, List.map_cons, List.map_map, Ping_request, Ping_client]
    simp only [Nat.add_zero, Nat.mod_eq_of_lt hc]
    congr 1
    apply List.map_congr_left
    intro i _
    simp only [Function.comp, Nat.succ_eq_add_one]
    omega

theorem clientAfter_seq (calls : List (Int × Env)) :
    ∀ c : Client, c.seq < 65536 →
      (clientAfter c calls).seq = (c.seq + calls.length) % 65536 := by
  induction calls with
  | nil => intro c hc; simp [clientAfter, Nat.mod_eq_of_lt hc]
  | cons call rest ih =>
    intro c hc
    obtain ⟨t, e⟩ := call
    have hlt : (Ping c t e).client.seq < 65536 := by
      rw [Ping_client]; exact Nat.mod_lt _ (by norm_num)
    simp only [clientAfter, List.length_cons]
    rw [ih _ hlt, Ping_client]
    simp only
    omega

/-- C7: on a client whose sequence counter is `k`, `N` consecutive `Ping` calls
build Echo Requests with the sequence numbers `k, k+1, ..., k+N-1` modulo `2^16`
(pairwise different for `N ≤ 65536`); each call uses the counter's value before
the call and advances it by exactly one whatever the collaborators answer;
`CurrentSeq` returns the number the next `Ping` will use and leaves the client
unchanged; a client from `NewClient` starts at `1`. -/
theorem ping_sequence_numbers (c : Client) (calls : List (Int × Env)) (hk : c.seq < 65536) :
    (pingMany c calls).length = calls.length ∧
      (∀ i, i < calls.length →
        ((pingMany c calls)[i]?).map (fun r => r.request.Seq) = some ((c.seq + i) % 65536)) ∧
      (calls.length ≤ 65536 → ((pingMany c calls).map (fun r => r.request.Seq)).Nodup) ∧
      (clientAfter c calls).seq = (c.seq + calls.length) % 65536 ∧
      (∀ t env, (Ping c t env).request.Seq = c.seq ∧
        (Ping c t env).client.seq = (c.seq + 1) % 65536 ∧
        (Ping c t env).request.Seq = (CurrentSeq c).1) ∧
      (CurrentSeq c).2 = c ∧
      (∀ pid, (CurrentSeq (NewClient pid)).1 = 1) := by
  refine ⟨pingMany_length calls c, ?_, ?_, clientAfter_seq calls c hk, ?_, rfl, fun _ => rfl⟩
  · intro i hi
    rw [← List.getElem?_map, pingMany_seqs calls c hk, List.getElem?_map,
      List.getElem?_range hi]
    rfl
  · intro hN
    rw [pingMany_seqs calls c hk]
    apply List.Nodup.map_on _ (List.nodup_range _)
    intro i hi j hj hij
    rw [List.mem_range] at hi hj
    omega
  · intro t env
    rw [Ping_request, Ping_client]
    exact ⟨rfl, rfl, rfl⟩

/-- Witness of C7: three calls on a client at counter `65535`, one failing to
send, one timing out, one failing to serialize: the requests carry `65535, 0, 1`. -/
theorem ping_sequence_numbers_witness :
    (pingMany ⟨7, 65535⟩
        [(1000000000, ⟨none, 0, some 1, none, []⟩),
         (1000000000, ⟨none, 5, none, none, [.failure 3 true]⟩),
         (1000000000, ⟨some 2, 9, none, none, []⟩)]).map (fun r => r.request.Seq)
      = [65535, 0, 1] ∧
      (clientAfter ⟨7, 65535⟩
        [(1000000000, ⟨none, 0, some 1, none, []⟩),
         (1000000000, ⟨none, 5, none, none, [.failure 3 true]⟩),
         (1000000000, ⟨some 2, 9, none, none, []⟩)]).seq = 2 := by
  have h := ping_sequence_numbers ⟨7, 65535⟩
    [(1000000000, ⟨none, 0, some 1, none, []⟩),
     (1000000000, ⟨none, 5, none, none, [.failure 3 true]⟩),
     (1000000000, ⟨some 2, 9, none, none, []⟩)] (by decide)
  exact ⟨by decide, h.2.2.2.1.trans (by decide)⟩

theorem timeSub_nonneg (t u : Int) (h : u ≤ t) : 0 ≤ timeSub t u := by
  unfold timeSub Rto.maxInt64 Rto.minInt64
  split_ifs <;> omega

theorem timeSub_exact (t u : Int) (h1 : Rto.minInt64 ≤ t - u) (h2 : t - u ≤ Rto.maxInt64) :
    timeSub t u = t - u := by
  unfold timeSub
  unfold Rto.maxInt64 Rto.minInt64 at *
  split_ifs <;> omega

theorem recvLoop_match_cons (id currentSeq : Nat) (start : Int) (icmp : ICMPv4)
    (readAt now : Int) (rest : List ReadEvent)
    (hty : typeOf icmp.TypeCode = ICMPv4TypeEchoReply) (hid : icmp.Id = id)
    (hseq : icmp.Seq = currentSeq) :
    recvLoop id currentSeq start (.datagram (some icmp) readAt now :: rest) =
      (1, some ⟨timeSub now start, false, none⟩) := by
  have hm : isMatch id currentSeq icmp = true := by simp [isMatch, hty, hid, hseq]
  simp [recvLoop, hm]

/-- C8: in a `Ping` call that reaches its receive loop, datagrams that do not
decode as ICMPv4, are not an Echo Reply, or are an Echo Reply with another
identifier or another sequence number are discarded and the loop reads again;
the first Echo Reply carrying the client's identifier and this call's sequence
number ends the call with `(rtt, false, nil)`, `rtt` being the receive time minus
the start time, not negative when the clock did not go back. -/
theorem reply_matching (c : Client) (timeout : Int) (env : Env)
    (noise rest : List ReadEvent) (icmp : ICMPv4) (readAt now : Int)
    (hser : env.serializeErr = none) (hsend : env.sendErr = none)
    (hdl : env.deadlineErr = none)
    (hreads : env.reads = noise ++ ReadEvent.datagram (some icmp) readAt now :: rest)
    (hnoise : ∀ ev ∈ noise, isNoise c.id c.seq ev = true)
    (hty : typeOf icmp.TypeCode = ICMPv4TypeEchoReply) (hid : icmp.Id = c.id)
    (hseq : icmp.Seq = c.seq) :
    (Ping c timeout env).ret = some ⟨timeSub now env.start, false, none⟩ ∧
      (Ping c timeout env).readsDone = noise.length + 1 ∧
      (env.start ≤ now → 0 ≤ timeSub now env.start) ∧
      (env.start ≤ now → now - env.start ≤ Rto.maxInt64 →
        timeSub now env.start = now - env.start) := by
  obtain ⟨h1, h2, _⟩ := Ping_reaches_loop c timeout env hser hsend hdl
  rw [h1, h2, hreads, recvLoop_noise_append _ _ _ _ _ hnoise,
    recvLoop_match_cons _ _ _ _ _ _ _ hty hid hseq]
  refine ⟨rfl, by simp only; omega, timeSub_nonneg _ _, ?_⟩
  intro hle hfit
  exact timeSub_exact _ _ (by unfold Rto.minInt64; omega) hfit

/-- Witness of C8: a datagram that does not decode, an Echo Request, an Echo
Reply of another process, and an Echo Reply with the right identifier and the
previous sequence number are skipped; the matching reply read at clock `10`
after a start at clock `4` gives `(6, false, nil)` on the fifth read. -/
theorem reply_matching_witness :
    (Ping ⟨7, 3⟩ 1000000000
        ⟨none, 4, none, none,
          [.datagram none 5 5, .datagram (some ⟨2048, 7, 3⟩) 6 6,
           .datagram (some ⟨0, 8, 3⟩) 7 7, .datagram (some ⟨0, 7, 2⟩) 8 8,
           .datagram (some ⟨0, 7, 3⟩) 9 10, .failure 1 true]⟩).ret
      = some ⟨6, false, none⟩ ∧
      (Ping ⟨7, 3⟩ 1000000000
        ⟨none, 4, none, none,
          [.datagram none 5 5, .datagram (some ⟨2048, 7, 3⟩) 6 6,
           .datagram (some ⟨0, 8, 3⟩) 7 7, .datagram (some ⟨0, 7, 2⟩) 8 8,
           .datagram (some ⟨0, 7, 3⟩) 9 10, .failure 1 true]⟩).readsDone = 5 := by
  have h := reply_matching ⟨7, 3⟩ 1000000000
    ⟨none, 4, none, none,
      [.datagram none 5 5, .datagram (some ⟨2048, 7, 3⟩) 6 6,
       .datagram (some ⟨0, 8, 3⟩) 7 7, .datagram (some ⟨0, 7, 2⟩) 8 8,
       .datagram (some ⟨0, 7, 3⟩) 9 10, .failure 1 true]⟩
    [.datagram none 5 5, .datagram (some ⟨2048, 7, 3⟩) 6 6,
     .datagram (some ⟨0, 8, 3⟩) 7 7, .datagram (some ⟨0, 7, 2⟩) 8 8]
    [.failure 1 true] ⟨0, 7, 3⟩ 9 10 rfl rfl rfl rfl (by decide) (by decide) rfl rfl
  exact ⟨h.1.trans (by decide), h.2.1⟩

theorem recvLoop_shape (id currentSeq : Nat) (start : Int) (reads : List ReadEvent) :
    ∀ r, (recvLoop id currentSeq start reads).2 = some r →
      (r.timedOut = false ∧ r.err = none) ∨ r = ⟨0, true, none⟩ ∨
        ∃ e, r = ⟨0, false, some e⟩ := by
  induction reads with
  | nil => intro r h; simp [recvLoop] at h
  | cons ev rest ih =>
    intro r h
    cases ev with
    | failure cause nt =>
      cases nt with
      | true =>
        simp only [recvLoop, if_true, Option.some.injEq] at h
        exact Or.inr (Or.inl h.symm)
      | false =>
        simp only [recvLoop, Bool.false_eq_true, if_false, Option.some.injEq] at h
        exact Or.inr (Or.inr ⟨_, h.symm⟩)
    | datagram layer readAt now =>
      cases layer with
      | none => exact ih r (by simpa [recvLoop] using h)
      | some icmp =>
        by_cases hm : isMatch id currentSeq icmp = true
        · simp only [recvLoop, hm, if_true, Option.some.injEq] at h
          subst h
          exact Or.inl ⟨rfl, rfl⟩
        · exact ih r (by simpa [recvLoop, hm] using h)

theorem recvLoop_measured (id currentSeq : Nat) (start : Int) (reads : List ReadEvent) :
    ∀ r, (recvLoop id currentSeq start reads).2 = some r → r.timedOut = false →
      r.err = none →
      ∃ icmp readAt now, ReadEvent.datagram (some icmp) readAt now ∈ reads ∧
        isMatch id currentSeq icmp = true ∧ r.rtt = timeSub now start := by
  induction reads with
  | nil => intro r h; simp [recvLoop] at h
  | cons ev rest ih =>
    intro r h hto herr
    cases ev with
    | failure cause nt =>
      cases nt with
      | true =>
        simp only [recvLoop, if_true, Option.some.injEq] at h
        subst h
        simp at hto
      | false =>
        simp only [recvLoop, Bool.false_eq_true, if_false, Option.some.injEq] at h
        subst h
        simp at herr
    | datagram layer readAt now =>
      cases layer with
      | none =>
        obtain ⟨i, ra, n, hmem, hm, hr⟩ := ih r (by simpa [recvLoop] using h) hto herr
        exact ⟨i, ra, n, List.mem_cons_of_mem _ hmem, hm, hr⟩
      | some icmp =>
        by_cases hm : isMatch id currentSeq icmp = true
        · simp only [recvLoop, hm, if_true, Option.some.injEq] at h
          subst h
          exact ⟨icmp, readAt, now, List.mem_cons_self _ _, hm, rfl⟩
        · obtain ⟨i, ra, n, hmem, hm2, hr⟩ :=
            ih r (by simpa [recvLoop, hm] using h) hto herr
          exact ⟨i, ra, n, List.mem_cons_of_mem _ hmem, hm2, hr⟩

theorem recvLoop_isSome (id currentSeq : Nat) (start : Int) (reads : List ReadEvent)
    (h : ∃ ev ∈ reads, isNoise id currentSeq ev = false) :
    (recvLoop id currentSeq start reads).2.isSome = true := by
  induction reads with
  | nil => obtain ⟨ev, hmem, _⟩ := h; simp at hmem
  | cons ev rest ih =>
    by_cases hn : isNoise id currentSeq ev = true
    · rw [recvLoop_noise_cons _ _ _ _ _ hn]
      apply ih
      obtain ⟨ev2, hmem, h2⟩ := h
      rcases List.mem_cons.mp hmem with heq | hin
      · subst heq; rw [hn] at h2; simp at h2
      · exact ⟨ev2, hin, h2⟩
    · cases ev with
      | failure cause nt => cases nt <;> simp [recvLoop]
      | datagram layer readAt now =>
        cases layer with
        | none => simp [isNoise] at hn
        | some icmp =>
          rw [isNoise_datagram] at hn
          have hm : isMatch id currentSeq icmp = true := by simpa using hn
          simp [recvLoop, hm]

theorem Ping_read_failure (c : Client) (timeout : Int) (env : Env)
    (noise rest : List ReadEvent) (cause : Nat) (nt : Bool)
    (hser : env.serializeErr = none) (hsend : env.sendErr = none)
    (hdl : env.deadlineErr = none)
    (hreads : env.reads = noise ++ ReadEvent.failure cause nt :: rest)
    (hnoise : ∀ ev ∈ noise, isNoise c.id c.seq ev = true) :
    (Ping c timeout env).ret =
        some (if nt then ⟨0, true, none⟩ else ⟨0, false, some (.plain cause)⟩) ∧
      (Ping c timeout env).readsDone = noise.length + 1 := by
  obtain ⟨h1, h2, _⟩ := Ping_reaches_loop c timeout env hser hsend hdl
  rw [h1, h2, hreads, recvLoop_noise_append _ _ _ _ _ hnoise]
  cases nt
  · exact ⟨rfl, by simp only [recvLoop, Bool.false_eq_true, if_false]; omega⟩
  · exact ⟨rfl, by simp only [recvLoop, if_true]; omega⟩

theorem Ping_shape (c : Client) (timeout : Int) (env : Env) :
    ∀ r, (Ping c timeout env).ret = some r →
      (r.timedOut = false ∧ r.err = none) ∨ r = ⟨0, true, none⟩ ∨
        ∃ e, r = ⟨0, false, some e⟩ := by
  intro r h
  unfold Ping at h
  cases hs : env.serializeErr with
  | some e =>
    simp only [hs, Option.some.injEq] at h
    exact Or.inr (Or.inr ⟨_, h.symm⟩)
  | none =>
    cases hw : env.sendErr with
    | some e =>
      simp only [hs, hw, Option.some.injEq] at h
      exact Or.inr (Or.inr ⟨_, h.symm⟩)
    | none =>
      cases hd : env.deadlineErr with
      | some e =>
        simp only [hs, hw, hd, Option.some.injEq] at h
        exact Or.inr (Or.inr ⟨_, h.symm⟩)
      | none =>
        simp only [hs, hw, hd] at h
        exact recvLoop_shape _ _ _ _ r h

/-- C9: whatever a `Ping` call returns has one of three shapes, `(rtt, false,
nil)`, `(0, true, nil)` or `(0, false, err)` with an error, never the timed-out
flag together with an error, and the call does return once a collaborator fails
or a read ends the loop; a failed send returns the failure shape before any
read; a read error that is a network timeout returns `(0, true, nil)`; any other
read error returns `(0, false, err)` with that error and no further read. -/
theorem ping_return_shapes (c : Client) (timeout : Int) (env : Env) :
    (∀ r, (Ping c timeout env).ret = some r →
        ((r.timedOut = false ∧ r.err = none) ∨ r = ⟨0, true, none⟩ ∨
          ∃ e, r = ⟨0, false, some e⟩) ∧
        ¬ (r.timedOut = true ∧ r.err ≠ none)) ∧
      ((env.serializeErr ≠ none ∨ env.sendErr ≠ none ∨ env.deadlineErr ≠ none ∨
          ∃ ev ∈ env.reads, isNoise c.id c.seq ev = false) →
        (Ping c timeout env).ret.isSome = true) ∧
      (∀ e, env.serializeErr = none → env.sendErr = some e →
        (Ping c timeout env).ret = some ⟨0, false, some (.send e)⟩ ∧
          (Ping c timeout env).readsDone = 0) ∧
      (∀ noise cause rest, env.serializeErr = none → env.sendErr = none →
        env.deadlineErr = none →
        env.reads = noise ++ ReadEvent.failure cause true :: rest →
        (∀ ev ∈ noise, isNoise c.id c.seq ev = true) →
        (Ping c timeout env).ret = some ⟨0, true, none⟩ ∧
          (Ping c timeout env).readsDone = noise.length + 1) ∧
      (∀ noise cause rest, env.serializeErr = none → env.sendErr = none →
        env.deadlineErr = none →
        env.reads = noise ++ ReadEvent.failure cause false :: rest →
        (∀ ev ∈ noise, isNoise c.id c.seq ev = true) →
        (Ping c timeout env).ret = some ⟨0, false, some (.plain cause)⟩ ∧
          (Ping c timeout env).readsDone = noise.length + 1) := by
  refine ⟨?_, ?_, ?_, ?_, ?_⟩
  · intro r h
    have hsh := Ping_shape c timeout env r h
    refine ⟨hsh, ?_⟩
    rintro ⟨hto, herr⟩
    rcases hsh with ⟨h1, _⟩ | h2 | ⟨e, h3⟩
    · rw [h1] at hto; simp at hto
    · rw [h2] at herr; simp at herr
    · rw [h3] at hto; simp at hto
  · intro h
    cases hs : env.serializeErr with
    | some e => simp [Ping, hs]
    | none =>
      cases hw : env.sendErr with
      | some e => simp [Ping, hs, hw]
      | none =>
        cases hd : env.deadlineErr with
        | some e => simp [Ping, hs, hw, hd]
        | none =>
          rw [(Ping_reaches_loop c timeout env hs hw hd).1]
          apply recvLoop_isSome
          rcases h with h | h | h | h
          · exact absurd hs h
          · exact absurd hw h
          · exact absurd hd h
          · exact h
  · intro e hs hw
    simp [Ping, hs, hw]
  · intro noise cause rest hs hw hd hreads hnoise
    exact Ping_read_failure c timeout env noise rest cause true hs hw hd hreads hnoise
  · intro noise cause rest hs hw hd hreads hnoise
    exact Ping_read_failure c timeout env noise rest cause false hs hw hd hreads hnoise

/-- Witness of C9: a failed send returns `(0, false, send error)` with no read;
a timeout error after one foreign reply returns `(0, true, nil)`; another read
error returns `(0, false, err)` at once, the matching reply behind it unread. -/
theorem ping_return_shapes_witness :
    ((Ping ⟨7, 3⟩ 1000000000 ⟨none, 0, some 11, none, [.failure 1 true]⟩).ret
        = some ⟨0, false, some (.send 11)⟩ ∧
      (Ping ⟨7, 3⟩ 1000000000 ⟨none, 0, some 11, none, [.failure 1 true]⟩).readsDone = 0) ∧
      ((Ping ⟨7, 3⟩ 1000000000
          ⟨none, 0, none, none, [.datagram (some ⟨0, 8, 3⟩) 5 5, .failure 1 true]⟩).ret
        = some ⟨0, true, none⟩) ∧
      ((Ping ⟨7, 3⟩ 1000000000
          ⟨none, 0, none, none, [.failure 4 false, .datagram (some ⟨0, 7, 3⟩) 5 5]⟩).ret
        = some ⟨0, false, some (.plain 4)⟩ ∧
       (Ping ⟨7, 3⟩ 1000000000
          ⟨none, 0, none, none, [.failure 4 false, .datagram (some ⟨0, 7, 3⟩) 5 5]⟩).readsDone
        = 1) :=
  ⟨(ping_return_shapes ⟨7, 3⟩ 1000000000 ⟨none, 0, some 11, none, [.failure 1 true]⟩).2.2.1
      11 rfl rfl,
    ((ping_return_shapes ⟨7, 3⟩ 1000000000
      ⟨none, 0, none, none, [.datagram (some ⟨0, 8, 3⟩) 5 5, .failure 1 true]⟩).2.2.2.1
      [.datagram (some ⟨0, 8, 3⟩) 5 5] 1 [] rfl rfl rfl rfl (by decide)).1,
    (ping_return_shapes ⟨7, 3⟩ 1000000000
      ⟨none, 0, none, none, [.failure 4 false, .datagram (some ⟨0, 7, 3⟩) 5 5]⟩).2.2.2.2
      [] 4 [.datagram (some ⟨0, 7, 3⟩) 5 5] rfl rfl rfl rfl (by decide)⟩

/-- C10, counterexample: timeout `1s`, start at clock `0`, so the deadline
handed to the socket is `1s`; a matching reply arrives `1ns` before it, the
transport hands it over, and the clock read on the next line shows `1s + 1ns`:
the call returns the measurement `rtt = 1s + 1ns`, larger than the timeout. -/
theorem late_clock_reading_counterexample :
    (Ping ⟨7, 3⟩ 1000000000
        ⟨none, 0, none, none,
          deliver 1000000000 [⟨some ⟨0, 7, 3⟩, 999999999, 1000000001⟩]⟩).deadline
      = some 1000000000 ∧
      (999999999 : Int) < 1000000000 ∧
      (Ping ⟨7, 3⟩ 1000000000
        ⟨none, 0, none, none,
          deliver 1000000000 [⟨some ⟨0, 7, 3⟩, 999999999, 1000000001⟩]⟩).ret
      = some ⟨1000000001, false, none⟩ ∧
      ¬ (∀ r, (Ping ⟨7, 3⟩ 1000000000
          ⟨none, 0, none, none,
            deliver 1000000000 [⟨some ⟨0, 7, 3⟩, 999999999, 1000000001⟩]⟩).ret
            = some r → r.timedOut = false → r.err = none → r.rtt ≤ 1000000000) := by
  refine ⟨by decide, by decide, by decide, ?_⟩
  intro h
  have := h ⟨1000000001, false, none⟩ (by decide) rfl rfl
  exact absurd this (by decide)

theorem mem_deliver_datagram (d : Int) (arrivals : List Arrival) (layer : Option ICMPv4)
    (readAt now : Int) (h : ReadEvent.datagram layer readAt now ∈ deliver d arrivals) :
    ∃ a ∈ arrivals, a.arrivedAt < d ∧ a.layer = layer ∧ a.arrivedAt = readAt ∧ a.now = now := by
  unfold deliver at h
  rcases List.mem_append.mp h with h1 | h2
  · obtain ⟨a, ha, he⟩ := List.mem_map.mp h1
    rw [List.mem_filter] at ha
    simp only [Arrival.toEvent, ReadEvent.datagram.injEq] at he
    exact ⟨a, ha.1, by simpa using ha.2, he.1, he.2.1, he.2.2⟩
  · simp at h2

/-- C10, amended: a `Ping(timeout)` call with start timestamp `t0` that reaches
its receive loop hands the deadline `t0 + timeout` to the socket.  Over a
transport that honours that deadline: if no matching Echo Reply arrives before
`t0 + timeout`, the call returns the timeout outcome, not a measurement, after
reading exactly the datagrams that arrived before the deadline, even when
matching replies arrive at the deadline or right after it; a measurement is
returned only for a matching reply that arrived before `t0 + timeout`, so a late
reply is never promoted; its `rtt` is the clock reading taken after the read
minus `t0`, at most `timeout` when that reading is not later than the deadline. -/
theorem deadline_enforced_by_read (c : Client) (timeout : Int) (env : Env)
    (arrivals : List Arrival)
    (hser : env.serializeErr = none) (hsend : env.sendErr = none)
    (hdl : env.deadlineErr = none)
    (htransport : ∀ d, (Ping c timeout env).deadline = some d →
      env.reads = deliver d arrivals) :
    (Ping c timeout env).deadline = some (env.start + timeout) ∧
      ((∀ a ∈ arrivals, a.arrivedAt < env.start + timeout →
          isNoise c.id c.seq a.toEvent = true) →
        (Ping c timeout env).ret = some ⟨0, true, none⟩ ∧
          (Ping c timeout env).readsDone =
            (arrivals.filter (fun a => decide (a.arrivedAt < env.start + timeout))).length
              + 1) ∧
      (∀ r, (Ping c timeout env).ret = some r → r.timedOut = false → r.err = none →
        ∃ a ∈ arrivals, isNoise c.id c.seq a.toEvent = false ∧
          a.arrivedAt < env.start + timeout ∧ r.rtt = timeSub a.now env.start ∧
          (Rto.minInt64 ≤ timeout → a.now ≤ env.start + timeout → r.rtt ≤ timeout)) := by
  obtain ⟨hret, _, hdead⟩ := Ping_reaches_loop c timeout env hser hsend hdl
  have hreads : env.reads = deliver (env.start + timeout) arrivals :=
    htransport _ hdead
  refine ⟨hdead, ?_, ?_⟩
  · intro hnone
    have hsplit : env.reads =
        (arrivals.filter (fun a => decide (a.arrivedAt < env.start + timeout))).map
          Arrival.toEvent ++ ReadEvent.failure 0 true :: [] := hreads
    have hnoise : ∀ ev ∈ (arrivals.filter
        (fun a => decide (a.arrivedAt < env.start + timeout))).map Arrival.toEvent,
        isNoise c.id c.seq ev = true := by
      intro ev hev
      obtain ⟨a, ha, he⟩ := List.mem_map.mp hev
      rw [List.mem_filter] at ha
      rw [← he]
      exact hnone a ha.1 (by simpa using ha.2)
    have h := Ping_read_failure c timeout env _ [] 0 true hser hsend hdl hsplit hnoise
    rw [List.length_map] at h
    exact ⟨h.1, h.2⟩
  · intro r hr hto herr
    rw [hret] at hr
    obtain ⟨icmp, readAt, now, hmem, hm, hrtt⟩ := recvLoop_measured _ _ _ _ r hr hto herr
    rw [hreads] at hmem
    obtain ⟨a, ha, hbefore, hlayer, hat, hnow⟩ := mem_deliver_datagram _ _ _ _ _ hmem
    refine ⟨a, ha, ?_, hbefore, by rw [hnow]; exact hrtt, ?_⟩
    · have : a.toEvent = ReadEvent.datagram (some icmp) a.arrivedAt a.now := by
        simp [Arrival.toEvent, hlayer]
      rw [this, isNoise_datagram, hm]
      rfl
    · intro hmin hle
      rw [hrtt, ← hnow]
      unfold timeSub
      unfold Rto.minInt64 at hmin
      unfold Rto.maxInt64 Rto.minInt64
      split_ifs <;> omega

/-- Witness of C10 as amended: timeout `1s` from clock `0`; a foreign reply
arrives at `5ns`, matching replies arrive at the deadline and `1ns` after it.
The deadline set is `1s`, the call reads the foreign reply, then the timeout
error, and returns `(0, true, nil)`; the late replies are never read. -/
theorem deadline_enforced_by_read_witness :
    (Ping ⟨7, 3⟩ 1000000000
        ⟨none, 0, none, none,
          deliver 1000000000
            [⟨some ⟨0, 8, 3⟩, 5, 5⟩, ⟨some ⟨0, 7, 3⟩, 1000000000, 1000000000⟩,
             ⟨some ⟨0, 7, 3⟩, 1000000001, 1000000001⟩]⟩).deadline = some 1000000000 ∧
      (Ping ⟨7, 3⟩ 1000000000
        ⟨none, 0, none, none,
          deliver 1000000000
            [⟨some ⟨0, 8, 3⟩, 5, 5⟩, ⟨some ⟨0, 7, 3⟩, 1000000000, 1000000000⟩,
             ⟨some ⟨0, 7, 3⟩, 1000000001, 1000000001⟩]⟩).ret = some ⟨0, true, none⟩ ∧
      (Ping ⟨7, 3⟩ 1000000000
        ⟨none, 0, none, none,
          deliver 1000000000
            [⟨some ⟨0, 8, 3⟩, 5, 5⟩, ⟨some ⟨0, 7, 3⟩, 1000000000, 1000000000⟩,
             ⟨some ⟨0, 7, 3⟩, 1000000001, 1000000001⟩]⟩).readsDone = 2 := by
  have h := deadline_enforced_by_read ⟨7, 3⟩ 1000000000
    ⟨none, 0, none, none,
      deliver 1000000000
        [⟨some ⟨0, 8, 3⟩, 5, 5⟩, ⟨some ⟨0, 7, 3⟩, 1000000000, 1000000000⟩,
         ⟨some ⟨0, 7, 3⟩, 1000000001, 1000000001⟩]⟩
    [⟨some ⟨0, 8, 3⟩, 5, 5⟩, ⟨some ⟨0, 7, 3⟩, 1000000000, 1000000000⟩,
     ⟨some ⟨0, 7, 3⟩, 1000000001, 1000000001⟩] rfl rfl rfl
    (by
      intro d hd
      have hd2 : some (1000000000 : Int) = some d := hd
      cases hd2
      rfl)
  obtain ⟨h1, h2, _⟩ := h
  have h3 := h2 (by decide)
  exact ⟨h1, h3.1, h3.2.trans (by decide)⟩

end Pinger
